import Mathlib

/-!
Verification of the HWP binary-format parsing core of markdown-media.

The Rust sources under `src/core/src/hwp/` are modelled as a shallow
embedding: byte buffers are `List Nat` (each entry a byte value), machine
integers are `Nat` with explicit `% 2 ^ w` where wrap-around matters, and
fallible parsers return `Option`.  All definitions are executable.
-/

/-! ## Definitions -/

/-- Read one byte of a buffer (`data[i]`); used only under the same bounds
checks the source performs. -/
def readU8 (data : List Nat) (i : Nat) : Nat :=
  data.getD i 0

/-- `u16::from_le_bytes([data[i], data[i+1]])`. -/
def readU16 (data : List Nat) (i : Nat) : Nat :=
  readU8 data i + 256 * readU8 data (i + 1)

/-- `u32::from_le_bytes([data[i], data[i+1], data[i+2], data[i+3]])`. -/
def readU32 (data : List Nat) (i : Nat) : Nat :=
  readU8 data i + 256 * readU8 data (i + 1) + 65536 * readU8 data (i + 2) +
    16777216 * readU8 data (i + 3)

/-- `HwpRecord` from `record.rs` (`tag_id`/`level` are `u16`, `size` is
`u32`, `data` is the payload byte vector). -/
structure HwpRecord where
  tag_id : Nat
  level : Nat
  size : Nat
  data : List Nat
deriving DecidableEq, Repr

/-- `RecordParser::parse_next` from `record.rs`; the parser state is the
cursor `pos`, returned alongside the record on success. -/
def parse_next (data : List Nat) (pos : Nat) : Option (HwpRecord × Nat) :=
  if pos + 4 > data.length then none
  else
    let header := readU32 data pos
    let tag_id := header % 1024               -- header & 0x3FF
    let level := header / 1024 % 1024         -- (header >> 10) & 0x3FF
    let size_field := header / 1048576 % 4096 -- (header >> 20) & 0xFFF
    if size_field = 4095 then                 -- 0xFFF: extended size follows
      if pos + 4 + 4 > data.length then none
      else
        let size := readU32 data (pos + 4)
        if pos + 8 + size > data.length then none
        else some (⟨tag_id, level, size, (data.drop (pos + 8)).take size⟩, pos + 8 + size)
    else
      if pos + 4 + size_field > data.length then none
      else some (⟨tag_id, level, size_field, (data.drop (pos + 4)).take size_field⟩,
        pos + 4 + size_field)

/-- The loop of `RecordParser::parse_all`, with explicit fuel so that the
definition computes by `rfl`/`decide`.  `parse_all_go_congr` below shows the
result does not depend on the fuel once it exceeds the bytes remaining, so
the fuel is an implementation artifact, not a semantic cutoff. -/
def parse_all_go (data : List Nat) : Nat → Nat → List HwpRecord
  | _, 0 => []
  | pos, fuel + 1 =>
    match parse_next data pos with
    | none => []
    | some (r, pos') => r :: parse_all_go data pos' fuel

/-- `RecordParser::parse_all` started at cursor `pos`. -/
def parse_all_from (data : List Nat) (pos : Nat) : List HwpRecord :=
  parse_all_go data pos (data.length + 1 - pos)

/-- `RecordParser::parse_all` on a fresh parser (`position = 0`). -/
def parse_all (data : List Nat) : List HwpRecord :=
  parse_all_from data 0

/-- Little-endian byte encoding of a u32, from the claim's description of
the record-header encoding. -/
def u32le (n : Nat) : List Nat :=
  [n % 256, n / 256 % 256, n / 65536 % 256, n / 16777216 % 256]

/-- Claim-side encoder: header word `tag_id | level << 10 | size << 20`
followed by the payload. -/
def encode_record_direct (tag level size : Nat) (payload : List Nat) : List Nat :=
  u32le (tag + 1024 * level + 1048576 * size) ++ payload

/-- Claim-side encoder: header word with the `0xFFF` sentinel in the size
field, a little-endian u32 extended-size word, then the payload. -/
def encode_record_extended (tag level size : Nat) (payload : List Nat) : List Nat :=
  u32le (tag + 1024 * level + 1048576 * 4095) ++ (u32le size ++ payload)

/-- `char::from_u32` restricted to u16 code units: `none` exactly on the
surrogate range `0xD800..=0xDFFF`. -/
def char_from_u32 (code : Nat) : Option Char :=
  if code < 55296 ∨ (57344 ≤ code ∧ code < 1114112) then some (Char.ofNat code) else none

/-- Loop of `extract_para_text` (record.rs lines 175-215).  The source scans
an index `i` while `i + 1 < data.len()` and reads `data[i]`, `data[i+1]`;
here the buffer suffix is consumed structurally, which is the same access
pattern.  The 14-byte skip for inline controls matches `i += 14` (if fewer
than 14 bytes remain the source loop exits on its bound check, and the
wildcard arm returns the accumulated result).  Note the inner check for
code units 11 (`CHAR_TABLE`) and 12 (`CHAR_DRAWING`) is kept verbatim from
the source even though the enclosing range guard `0..=8 | 0x10..=0x1F`
makes it unreachable for them. -/
def extract_para_text_go : List Nat → List Char
  | b0 :: b1 :: rest =>
    let char_code := b0 + 256 * b1
    if char_code = 9 then '\t' :: extract_para_text_go rest        -- CHAR_TAB
    else if char_code = 10 then '\n' :: extract_para_text_go rest  -- CHAR_LINE_BREAK
    else if char_code = 13 then '\n' :: extract_para_text_go rest  -- CHAR_PARA_BREAK
    else if char_code = 32 then ' ' :: extract_para_text_go rest   -- CHAR_SPACE
    else if char_code = 30 then '-' :: extract_para_text_go rest   -- CHAR_HYPHEN
    else if char_code ≤ 8 ∨ (16 ≤ char_code ∧ char_code ≤ 31) then
      if char_code = 1 ∨ char_code = 3 ∨ char_code = 4 ∨ char_code = 11 ∨ char_code = 12 then
        match rest with
        | _ :: _ :: _ :: _ :: _ :: _ :: _ :: _ :: _ :: _ :: _ :: _ :: _ :: _ :: rest14 =>
          extract_para_text_go rest14
        | _ => []
      else extract_para_text_go rest
    else
      match char_from_u32 char_code with
      | some c => c :: extract_para_text_go rest
      | none => extract_para_text_go rest
  | _ => []

/-- `extract_para_text` from `record.rs`. -/
def extract_para_text (data : List Nat) : String :=
  String.mk (extract_para_text_go data)

/-- Loop of `extract_para_text_with_positions` (record.rs lines 785-842),
threading the logical character position `char_pos`. -/
def extract_positions_go : List Nat → Nat → List (Nat × Char)
  | b0 :: b1 :: rest, char_pos =>
    let char_code := b0 + 256 * b1
    if char_code = 9 then (char_pos, '\t') :: extract_positions_go rest (char_pos + 1)
    else if char_code = 10 then (char_pos, '\n') :: extract_positions_go rest (char_pos + 1)
    else if char_code = 13 then (char_pos, '\n') :: extract_positions_go rest (char_pos + 1)
    else if char_code = 32 then (char_pos, ' ') :: extract_positions_go rest (char_pos + 1)
    else if char_code = 30 then (char_pos, '-') :: extract_positions_go rest (char_pos + 1)
    else if char_code ≤ 8 ∨ (16 ≤ char_code ∧ char_code ≤ 31) then
      if char_code = 1 ∨ char_code = 3 ∨ char_code = 4 ∨ char_code = 11 ∨ char_code = 12 then
        match rest with
        | _ :: _ :: _ :: _ :: _ :: _ :: _ :: _ :: _ :: _ :: _ :: _ :: _ :: _ :: rest14 =>
          extract_positions_go rest14 (char_pos + 1)
        | _ => []
      else extract_positions_go rest (char_pos + 1)
    else
      match char_from_u32 char_code with
      | some c => (char_pos, c) :: extract_positions_go rest (char_pos + 1)
      | none => extract_positions_go rest (char_pos + 1)
  | _, _ => []

/-- `extract_para_text_with_positions` from `record.rs`. -/
def extract_para_text_with_positions (data : List Nat) : List (Nat × Char) :=
  extract_positions_go data 0

/-- `CharShape` from `record.rs`. -/
structure CharShape where
  bold : Bool
  italic : Bool
  underline : Bool
  strikeout : Bool
deriving DecidableEq, Repr

/-- `parse_char_shape` from `record.rs`: requires 50 bytes, reads the
`Attr` u32 at offset 46 and tests its flag bits. -/
def parse_char_shape (data : List Nat) : Option CharShape :=
  if data.length < 50 then none
  else
    let attr := readU32 data 46
    some ⟨attr / 2 % 2 != 0,       -- bit 1: bold
      attr % 2 != 0,               -- bit 0: italic
      attr / 4 % 4 != 0,           -- bits 2-3: underline type
      attr / 262144 % 16 != 0⟩     -- bits 18-21: strikeout type

/-- `apply_markdown_formatting` from `record.rs`. -/
def apply_markdown_formatting (text : String) (style : CharShape) : String :=
  if text.isEmpty then ""
  else
    let r1 := if style.strikeout then "~~" ++ text ++ "~~" else text
    let r2 :=
      if style.bold && style.italic then "***" ++ r1 ++ "***"
      else if style.bold then "**" ++ r1 ++ "**"
      else if style.italic then "*" ++ r1 ++ "*"
      else r1
    if style.underline then "<u>" ++ r2 ++ "</u>" else r2

/-- Loop of `parse_para_char_shape`: `(position, shape_id)` u32 pairs while
8 bytes remain. -/
def parse_para_char_shape_go : List Nat → List (Nat × Nat)
  | b0 :: b1 :: b2 :: b3 :: b4 :: b5 :: b6 :: b7 :: rest =>
    (b0 + 256 * b1 + 65536 * b2 + 16777216 * b3,
      b4 + 256 * b5 + 65536 * b6 + 16777216 * b7) :: parse_para_char_shape_go rest
  | _ => []

/-- `parse_para_char_shape` from `record.rs` (the `mappings` field of
`ParaCharShapeMapping` is modelled as the bare list of pairs). -/
def parse_para_char_shape (data : List Nat) : Option (List (Nat × Nat)) :=
  if data.length < 8 then none else some (parse_para_char_shape_go data)

/-- Loop of `find_style_for_position`: scan pairs in order, remember the
last `shape_id` whose position is `≤ pos`, stop at the first larger one. -/
def find_style_go : List (Nat × Nat) → Nat → Option Nat → Option Nat
  | [], _, current => current
  | (map_pos, shape_id) :: rest, pos, current =>
    if map_pos ≤ pos then find_style_go rest pos (some shape_id) else current

/-- `find_style_for_position` from `record.rs`. -/
def find_style_for_position (pos : Nat) (mappings : List (Nat × Nat)) : Option Nat :=
  find_style_go mappings pos none

/-- Spec-side definition, following the spec's words: the `shape_id` of the
last pair whose position is `≤ p` (later pairs take precedence), regardless
of sortedness.  Compared against `find_style_for_position` in C4. -/
def last_style_le : List (Nat × Nat) → Nat → Option Nat
  | [], _ => none
  | (map_pos, shape_id) :: rest, p =>
    match last_style_le rest p with
    | some s => some s
    | none => if map_pos ≤ p then some shape_id else none

/-- The run-flush block of `extract_para_text_formatted`: look the style id
up in the `char_shapes` map and apply Markdown formatting, falling back to
the plain run. -/
def format_run (char_shapes : List (Nat × CharShape)) (style_id : Option Nat)
    (run : String) : String :=
  match style_id with
  | some id =>
    match char_shapes.lookup id with
    | some style => apply_markdown_formatting run style
    | none => run
  | none => run

/-- Main loop of `extract_para_text_formatted`: accumulate contiguous
same-style runs, flushing when the style changes. -/
def format_text_go (mapping : List (Nat × Nat)) (char_shapes : List (Nat × CharShape)) :
    List (Nat × Char) → Option Nat → String → String → String
  | [], current_style_id, current_run, result =>
    if current_run.isEmpty then result
    else result ++ format_run char_shapes current_style_id current_run
  | (pos, ch) :: rest, current_style_id, current_run, result =>
    let style_id := find_style_for_position pos mapping
    if style_id ≠ current_style_id ∧ ¬current_run.isEmpty then
      format_text_go mapping char_shapes rest style_id (String.mk [ch])
        (result ++ format_run char_shapes current_style_id current_run)
    else
      format_text_go mapping char_shapes rest style_id (current_run.push ch) result

/-- `extract_para_text_formatted` from `record.rs` (the `HashMap<u32,
CharShape>` is modelled as an association list queried with
`List.lookup`). -/
def extract_para_text_formatted (text_data : List Nat)
    (char_shape_mapping : Option (List (Nat × Nat)))
    (char_shapes : List (Nat × CharShape)) : String :=
  let twp := extract_para_text_with_positions text_data
  if twp.isEmpty then ""
  else
    match char_shape_mapping with
    | some m =>
      if m.isEmpty then String.mk (twp.map Prod.snd)
      else format_text_go m char_shapes twp none "" ""
    | none => String.mk (twp.map Prod.snd)

/-- Unicode `White_Space` code points, as used by Rust's `str::trim`. -/
def rust_is_whitespace (c : Char) : Bool :=
  [9, 10, 11, 12, 13, 32, 133, 160, 5760, 8192, 8193, 8194, 8195, 8196, 8197,
    8198, 8199, 8200, 8201, 8202, 8232, 8233, 8239, 8287, 12288].contains c.toNat

/-- `text.trim().is_empty()`: true exactly when every character of the text
is whitespace (trimming removes leading and trailing whitespace, so the
trimmed string is empty iff nothing else is present). -/
def is_blank (s : String) : Bool :=
  s.data.all rust_is_whitespace

/-- The mutable state of `HwpParser::parse_section_records_formatted`:
accumulated paragraphs, the pending `PARA_TEXT` payload, and the pending
paragraph char-shape mapping. -/
structure FmtState where
  paragraphs : List String
  current_text : Option (List Nat)
  current_mapping : Option (List (Nat × Nat))
deriving DecidableEq, Repr

/-- One iteration of the record loop in
`HwpParser::parse_section_records_formatted` (parser.rs lines 139-163).
Tags: 66 = PARA_HEADER, 67 = PARA_TEXT, 68 = PARA_CHAR_SHAPE. -/
def fmt_step (char_shapes : List (Nat × CharShape)) (st : FmtState) (r : HwpRecord) :
    FmtState :=
  if r.tag_id = 66 then
    match st.current_text with
    | some td =>
      let text := extract_para_text_formatted td st.current_mapping char_shapes
      { paragraphs := if is_blank text then st.paragraphs else st.paragraphs ++ [text],
        current_text := none, current_mapping := none }
    | none => st
  else if r.tag_id = 67 then { st with current_text := some r.data }
  else if r.tag_id = 68 then { st with current_mapping := parse_para_char_shape r.data }
  else st

/-- The final flush after the record loop (parser.rs lines 166-175). -/
def fmt_finalize (char_shapes : List (Nat × CharShape)) (st : FmtState) : List String :=
  match st.current_text with
  | some td =>
    let text := extract_para_text_formatted td st.current_mapping char_shapes
    if is_blank text then st.paragraphs else st.paragraphs ++ [text]
  | none => st.paragraphs

/-- `HwpParser::parse_section_records_formatted`, returning the paragraph
list (the source joins it with a newline). -/
def parse_section_records_formatted (records : List HwpRecord)
    (char_shapes : List (Nat × CharShape)) : List String :=
  fmt_finalize char_shapes (records.foldl (fmt_step char_shapes) ⟨[], none, none⟩)

/-- `CellSpan` from `record.rs`. -/
structure CellSpan where
  row : Nat
  col : Nat
  row_span : Nat
  col_span : Nat
deriving DecidableEq, Repr

/-- `TableInfo` from `record.rs` (fields in source order; `col_widths`
stays empty in `parse_table_info`, as in the source). -/
structure TableInfo where
  rows : Nat
  cols : Nat
  cell_count : Nat
  cell_spans : List CellSpan
  row_heights : List Nat
  col_widths : List Nat
deriving DecidableEq, Repr

/-- `parse_table_info` from `record.rs`: row/col counts at offsets 4 and 6,
row heights at offset 18 when present.  `cell_count` is the u16 product
`rows * cols` (wrapping, hence `% 65536`). -/
def parse_table_info (data : List Nat) : Option TableInfo :=
  if data.length < 8 then none
  else
    let rows := readU16 data 4
    let cols := readU16 data 6
    let row_heights :=
      if 18 + rows * 2 ≤ data.length then
        (List.range rows).foldl (fun acc i =>
          if 18 + i * 2 + 2 ≤ data.length then acc ++ [readU16 data (18 + i * 2)]
          else acc) []
      else []
    some ⟨rows, cols, rows * cols % 65536, [], row_heights, []⟩

/-- `parse_cell_list_header` from `record.rs`: requires 26 bytes; col span
at offset 22 and row span at offset 24, each clamped to minimum 1; row and
col are left 0 for the caller to fill. -/
def parse_cell_list_header (data : List Nat) : Option CellSpan :=
  if data.length < 26 then none
  else
    let col_span := readU16 data 22
    let row_span := readU16 data 24
    some ⟨0, 0, max row_span 1, max col_span 1⟩

/-- `TableData` from `parser.rs`. -/
structure TableData where
  rows : Nat
  cols : Nat
  cells : List (List String)
  cell_spans : List CellSpan
deriving DecidableEq, Repr

/-- Chunking loop of `organize_cells` (Rust `chunks(cols)`), with fuel so
the definition computes; `organize_go_congr` shows the fuel is irrelevant
once it reaches the list length. -/
def organize_go (cols : Nat) : Nat → List String → List (List String)
  | 0, _ => []
  | _ + 1, [] => []
  | fuel + 1, a :: rest =>
    (a :: rest).take cols :: organize_go cols fuel ((a :: rest).drop cols)

/-- `organize_cells` from `parser.rs`: empty grid for `cols == 0`, else the
flat list split into row-major chunks of `cols` (the last chunk may be
shorter when the buffer is not a multiple of `cols`). -/
def organize_cells (cells : List String) (cols : Nat) : List (List String) :=
  if cols = 0 then [] else organize_go cols cells.length cells

/-- The mutable state of `HwpParser::extract_tables` for one section. -/
structure TState where
  tables : List TableData
  current_table : Option TableData
  current_cells : List String
  current_spans : List CellSpan
  in_table : Bool
  table_info : Option (Nat × Nat)
  cell_index : Nat
deriving Repr

/-- Closing a table (the `if let Some(mut table) = current_table.take()`
blocks of `extract_tables`): attach the organized cells and the collected
spans, push the table, clear the buffers. -/
def et_close (st : TState) : TState :=
  match st.current_table with
  | some t =>
    { st with
      tables := st.tables ++ [{ t with
        cells := organize_cells st.current_cells t.cols,
        cell_spans := st.current_spans }],
      current_table := none, current_cells := [], current_spans := [] }
  | none => st

/-- One iteration of the record loop of `HwpParser::extract_tables`
(parser.rs lines 230-292).  Tags: 77 = TABLE, 72 = LIST_HEADER,
67 = PARA_TEXT.  The u16 casts of `row`/`col` are `% 65536`; note the
source would panic on `cell_index / cols` when a TABLE record declares
`cols = 0` and a 26-byte LIST_HEADER follows, while `Nat` division returns
0 there. -/
def et_step (st : TState) (r : HwpRecord) : TState :=
  if r.tag_id = 77 then
    let st1 := et_close st
    match parse_table_info r.data with
    | some info =>
      { st1 with
        current_table := some ⟨info.rows, info.cols, [], []⟩,
        table_info := some (info.rows, info.cols), in_table := true, cell_index := 0 }
    | none => st1
  else if r.tag_id = 72 ∧ st.in_table then
    match st.table_info with
    | some (_rows, cols) =>
      let st' :=
        match parse_cell_list_header r.data with
        | some span =>
          let span' : CellSpan :=
            ⟨st.cell_index / cols % 65536, st.cell_index % cols % 65536,
              span.row_span, span.col_span⟩
          if 1 < span'.row_span ∨ 1 < span'.col_span then
            { st with current_spans := st.current_spans ++ [span'] }
          else st
        | none => st
      { st' with cell_index := st'.cell_index + 1 }
    | none => st
  else if r.tag_id = 67 ∧ st.in_table then
    let cells' := st.current_cells ++ [extract_para_text r.data]
    let st1 := { st with current_cells := cells' }
    match st.table_info with
    | some (rows, cols) =>
      if rows * cols % 65536 ≤ cells'.length then
        match st1.current_table with
        | some t =>
          { st1 with
            tables := st1.tables ++ [{ t with
              cells := organize_cells cells' t.cols,
              cell_spans := st1.current_spans }],
            current_table := none, current_cells := [], current_spans := [],
            in_table := false, table_info := none }
        | none => st1
      else st1
    | none => st1
  else st

/-- The initial `extract_tables` state. -/
def extract_tables_init : TState :=
  ⟨[], none, [], [], false, none, 0⟩

/-- `HwpParser::extract_tables` over one section's record list (the source
iterates sections and concatenates; each section runs exactly this fold
plus the final close). -/
def extract_tables (records : List HwpRecord) : List TableData :=
  (et_close (records.foldl et_step extract_tables_init)).tables

/-- The well-formedness C8 asserts of every stored span. -/
def span_ok (s : CellSpan) : Prop :=
  1 ≤ s.row_span ∧ 1 ≤ s.col_span ∧ (1 < s.row_span ∨ 1 < s.col_span)

/-- `detect_image_format` from `parser.rs`: magic-byte sniffing in source
order, guarded by a minimum length of 8 bytes. -/
def detect_image_format (data : List Nat) : String :=
  if data.length < 8 then ""
  else if readU8 data 0 = 255 ∧ readU8 data 1 = 216 ∧ readU8 data 2 = 255 then "jpeg"
  else if readU8 data 0 = 137 ∧ readU8 data 1 = 80 ∧ readU8 data 2 = 78 ∧
      readU8 data 3 = 71 then "png"
  else if readU8 data 0 = 71 ∧ readU8 data 1 = 73 ∧ readU8 data 2 = 70 then "gif"
  else if readU8 data 0 = 66 ∧ readU8 data 1 = 77 then "bmp"
  else if readU8 data 0 = 215 ∧ readU8 data 1 = 205 ∧ readU8 data 2 = 198 ∧
      readU8 data 3 = 154 then "wmf"
  else if readU8 data 0 = 1 ∧ readU8 data 1 = 0 ∧ readU8 data 2 = 0 ∧
      readU8 data 3 = 0 then "emf"
  else if data.take 4 = [82, 73, 70, 70] ∧ 12 ≤ data.length ∧
      (data.drop 8).take 4 = [87, 69, 66, 80] then "webp"
  else ""

/-- `ImageData` from `parser.rs`. -/
structure ImageData where
  name : String
  original_name : String
  format : String
  data : List Nat
deriving DecidableEq, Repr

/-- The per-stream body of `HwpParser::extract_images` (parser.rs lines
187-207), over already-read `(name, bytes)` BinData streams (the OLE
container walk and decompression live outside the model). -/
def extract_images (streams : List (String × List Nat)) : List ImageData :=
  streams.filterMap (fun nd =>
    let format := detect_image_format nd.2
    if format.isEmpty then none
    else
      let filename :=
        if nd.1.endsWith ("." ++ format) then nd.1 else nd.1 ++ "." ++ format
      some ⟨filename, nd.1, format, nd.2⟩)

/-- `HwpFlags` from `ole.rs` (17 flags, fields in source order). -/
structure HwpFlags where
  compressed : Bool
  encrypted : Bool
  distributed : Bool
  script_saved : Bool
  drm_protected : Bool
  xml_template : Bool
  history : Bool
  signature : Bool
  certificate_encrypted : Bool
  certificate_drm : Bool
  ccl : Bool
  mobile_optimized : Bool
  private_info_security : Bool
  track_changes : Bool
  kogl : Bool
  video_control : Bool
  order_field_control : Bool
deriving DecidableEq, Repr

/-- `HwpFlags::default` from `ole.rs`: only `compressed` is true. -/
def hwp_flags_default : HwpFlags :=
  ⟨true, false, false, false, false, false, false, false, false, false, false,
    false, false, false, false, false, false⟩

/-- `HwpFlags::from_bytes` from `ole.rs`: default below 4 bytes, else the
little-endian u32 decoded bitwise (`flags & 2^i != 0` written as
`flags / 2^i % 2 != 0`). -/
def HwpFlags.from_bytes (data : List Nat) : HwpFlags :=
  if data.length < 4 then hwp_flags_default
  else
    let flags := readU32 data 0
    ⟨flags % 2 != 0,             -- & 0x01
      flags / 2 % 2 != 0,        -- & 0x02
      flags / 4 % 2 != 0,        -- & 0x04
      flags / 8 % 2 != 0,        -- & 0x08
      flags / 16 % 2 != 0,       -- & 0x10
      flags / 32 % 2 != 0,       -- & 0x20
      flags / 64 % 2 != 0,       -- & 0x40
      flags / 128 % 2 != 0,      -- & 0x80
      flags / 256 % 2 != 0,      -- & 0x100
      flags / 512 % 2 != 0,      -- & 0x200
      flags / 1024 % 2 != 0,     -- & 0x400
      flags / 2048 % 2 != 0,     -- & 0x800
      flags / 4096 % 2 != 0,     -- & 0x1000
      flags / 8192 % 2 != 0,     -- & 0x2000
      flags / 16384 % 2 != 0,    -- & 0x4000
      flags / 32768 % 2 != 0,    -- & 0x8000
      flags / 65536 % 2 != 0⟩    -- & 0x10000

/-- The flag-initialization logic of `OleReader::open` (ole.rs lines
96-108): start from the default, and only when a FileHeader stream exists
and holds at least 40 bytes decode `header[36..40]`; opening succeeds (a
flags value is produced) in every case.  The cfb container access itself
lives outside the model; `none` stands for an absent/unreadable
FileHeader stream. -/
def ole_open_flags : Option (List Nat) → HwpFlags
  | some header =>
    if 40 ≤ header.length then HwpFlags.from_bytes ((header.drop 36).take 4)
    else hwp_flags_default
  | none => hwp_flags_default

/-- Checked byte read: `none` signals an out-of-bounds access. -/
def readU16c (data : List Nat) (i : Nat) : Option Nat := do
  let b0 ← data[i]?
  let b1 ← data[i + 1]?
  pure (b0 + 256 * b1)

/-- Checked little-endian u32 read: `none` signals an out-of-bounds
access. -/
def readU32c (data : List Nat) (i : Nat) : Option Nat := do
  let b0 ← data[i]?
  let b1 ← data[i + 1]?
  let b2 ← data[i + 2]?
  let b3 ← data[i + 3]?
  pure (b0 + 256 * b1 + 65536 * b2 + 16777216 * b3)

/-- Checked slice `data[lo..lo+n]`: `none` signals an out-of-bounds
range. -/
def slice_c (data : List Nat) (lo n : Nat) : Option (List Nat) :=
  if lo + n ≤ data.length then some ((data.drop lo).take n) else none

/-- `parse_next` with every memory access checked: the outer `none` would
mean an out-of-bounds access, the inner `none` is the source's own
end-of-input result. -/
def parse_next_c (data : List Nat) (pos : Nat) : Option (Option (HwpRecord × Nat)) :=
  if pos + 4 > data.length then some none
  else do
    let header ← readU32c data pos
    let tag_id := header % 1024
    let level := header / 1024 % 1024
    let size_field := header / 1048576 % 4096
    if size_field = 4095 then
      if pos + 4 + 4 > data.length then pure none
      else do
        let size ← readU32c data (pos + 4)
        if pos + 8 + size > data.length then pure none
        else do
          let payload ← slice_c data (pos + 8) size
          pure (some (⟨tag_id, level, size, payload⟩, pos + 8 + size))
    else
      if pos + 4 + size_field > data.length then pure none
      else do
        let payload ← slice_c data (pos + 4) size_field
        pure (some (⟨tag_id, level, size_field, payload⟩, pos + 4 + size_field))

/-- `parse_all` with every memory access checked. -/
def parse_all_go_c (data : List Nat) : Nat → Nat → Option (List HwpRecord)
  | _, 0 => some []
  | pos, fuel + 1 => do
    match ← parse_next_c data pos with
    | none => pure []
    | some (r, pos') => do
      let rest ← parse_all_go_c data pos' fuel
      pure (r :: rest)

/-- Checked `parse_all` on a fresh parser. -/
def parse_all_c (data : List Nat) : Option (List HwpRecord) :=
  parse_all_go_c data 0 (data.length + 1)

/-- `parse_char_shape` with its `Attr` read at offset 46 checked. -/
def parse_char_shape_c (data : List Nat) : Option (Option CharShape) :=
  if data.length < 50 then some none
  else do
    let attr ← readU32c data 46
    pure (some ⟨attr / 2 % 2 != 0, attr % 2 != 0, attr / 4 % 4 != 0,
      attr / 262144 % 16 != 0⟩)

/-- The row-heights loop of `parse_table_info` with checked reads. -/
def row_heights_c (data : List Nat) (rows : Nat) : Option (List Nat) :=
  (List.range rows).foldlM (fun acc i =>
    if 18 + i * 2 + 2 ≤ data.length then (readU16c data (18 + i * 2)).map (fun v => acc ++ [v])
    else pure acc) []

/-- `parse_table_info` with every read checked. -/
def parse_table_info_c (data : List Nat) : Option (Option TableInfo) :=
  if data.length < 8 then some none
  else do
    let rows ← readU16c data 4
    let cols ← readU16c data 6
    if 18 + rows * 2 ≤ data.length then do
      let row_heights ← row_heights_c data rows
      pure (some ⟨rows, cols, rows * cols % 65536, [], row_heights, []⟩)
    else
      pure (some ⟨rows, cols, rows * cols % 65536, [], [], []⟩)

/-- `parse_cell_list_header` with its two u16 reads checked. -/
def parse_cell_list_header_c (data : List Nat) : Option (Option CellSpan) :=
  if data.length < 26 then some none
  else do
    let col_span ← readU16c data 22
    let row_span ← readU16c data 24
    pure (some ⟨0, 0, max row_span 1, max col_span 1⟩)

/-! ## Theorems -/

theorem parse_next_header_short {data : List Nat} {pos : Nat}
    (h : data.length < pos + 4) : parse_next data pos = none := by
  simp only [parse_next]
  rw [if_pos (by omega)]

theorem parse_next_ext_none {data : List Nat} {pos : Nat}
    (h2 : readU32 data pos / 1048576 % 4096 = 4095)
    (h3 : data.length < pos + 8 + readU32 data (pos + 4)) :
    parse_next data pos = none := by
  simp only [parse_next]
  by_cases h1 : pos + 4 > data.length
  · rw [if_pos h1]
  · rw [if_neg h1, if_pos h2]
    by_cases h4 : pos + 4 + 4 > data.length
    · rw [if_pos h4]
    · rw [if_neg h4, if_pos (by omega)]

theorem parse_next_ext_ok {data : List Nat} {pos : Nat}
    (h2 : readU32 data pos / 1048576 % 4096 = 4095)
    (h3 : pos + 8 + readU32 data (pos + 4) ≤ data.length) :
    parse_next data pos =
      some (⟨readU32 data pos % 1024, readU32 data pos / 1024 % 1024,
        readU32 data (pos + 4), (data.drop (pos + 8)).take (readU32 data (pos + 4))⟩,
        pos + 8 + readU32 data (pos + 4)) := by
  simp only [parse_next]
  rw [if_neg (by omega), if_pos h2, if_neg (by omega), if_neg (by omega)]

theorem parse_next_direct_none {data : List Nat} {pos : Nat}
    (h1 : pos + 4 ≤ data.length)
    (h2 : readU32 data pos / 1048576 % 4096 ≠ 4095)
    (h3 : data.length < pos + 4 + readU32 data pos / 1048576 % 4096) :
    parse_next data pos = none := by
  simp only [parse_next]
  rw [if_neg (by omega), if_neg h2, if_pos (by omega)]

theorem parse_next_direct_ok {data : List Nat} {pos : Nat}
    (h2 : readU32 data pos / 1048576 % 4096 ≠ 4095)
    (h3 : pos + 4 + readU32 data pos / 1048576 % 4096 ≤ data.length) :
    parse_next data pos =
      some (⟨readU32 data pos % 1024, readU32 data pos / 1024 % 1024,
        readU32 data pos / 1048576 % 4096,
        (data.drop (pos + 4)).take (readU32 data pos / 1048576 % 4096)⟩,
        pos + 4 + readU32 data pos / 1048576 % 4096) := by
  simp only [parse_next]
  rw [if_neg (by omega), if_neg h2, if_neg (by omega)]

theorem parse_next_bounds {data : List Nat} {pos : Nat} {r : HwpRecord} {pos' : Nat}
    (h : parse_next data pos = some (r, pos')) :
    pos + 4 ≤ pos' ∧ pos' ≤ data.length := by
  by_cases h1 : data.length < pos + 4
  · rw [parse_next_header_short h1] at h; cases h
  by_cases h2 : readU32 data pos / 1048576 % 4096 = 4095
  · by_cases h3 : data.length < pos + 8 + readU32 data (pos + 4)
    · rw [parse_next_ext_none h2 h3] at h; cases h
    · rw [parse_next_ext_ok h2 (by omega)] at h
      obtain ⟨-, hp⟩ := Prod.mk.injEq .. ▸ (Option.some.injEq _ _).mp h
      omega
  · by_cases h3 : data.length < pos + 4 + readU32 data pos / 1048576 % 4096
    · rw [parse_next_direct_none (by omega) h2 h3] at h; cases h
    · rw [parse_next_direct_ok h2 (by omega)] at h
      obtain ⟨-, hp⟩ := Prod.mk.injEq .. ▸ (Option.some.injEq _ _).mp h
      omega

theorem parse_next_payload_length {data : List Nat} {pos : Nat} {r : HwpRecord} {pos' : Nat}
    (h : parse_next data pos = some (r, pos')) :
    r.data.length = r.size := by
  by_cases h1 : data.length < pos + 4
  · rw [parse_next_header_short h1] at h; cases h
  by_cases h2 : readU32 data pos / 1048576 % 4096 = 4095
  · by_cases h3 : data.length < pos + 8 + readU32 data (pos + 4)
    · rw [parse_next_ext_none h2 h3] at h; cases h
    · rw [parse_next_ext_ok h2 (by omega)] at h
      obtain ⟨hr, -⟩ := Prod.mk.injEq .. ▸ (Option.some.injEq _ _).mp h
      subst hr
      simp only [List.length_take, List.length_drop]
      omega
  · by_cases h3 : data.length < pos + 4 + readU32 data pos / 1048576 % 4096
    · rw [parse_next_direct_none (by omega) h2 h3] at h; cases h
    · rw [parse_next_direct_ok h2 (by omega)] at h
      obtain ⟨hr, -⟩ := Prod.mk.injEq .. ▸ (Option.some.injEq _ _).mp h
      subst hr
      simp only [List.length_take, List.length_drop]
      omega

theorem parse_all_go_congr (data : List Nat) :
    ∀ (f₁ : Nat) (f₂ pos : Nat), data.length - pos < f₁ → data.length - pos < f₂ →
      parse_all_go data pos f₁ = parse_all_go data pos f₂ := by
  intro f₁
  induction f₁ with
  | zero => intro f₂ pos h₁ _; omega
  | succ n ih =>
    intro f₂ pos h₁ h₂
    match f₂, h₂ with
    | m + 1, _ =>
      show parse_all_go data pos (n + 1) = parse_all_go data pos (m + 1)
      unfold parse_all_go
      cases h : parse_next data pos with
      | none => rfl
      | some rp =>
        obtain ⟨r, pos'⟩ := rp
        have hb := parse_next_bounds h
        simp only
        rw [ih m pos' (by omega) (by omega)]

theorem parse_all_from_none {data : List Nat} {pos : Nat}
    (h : parse_next data pos = none) : parse_all_from data pos = [] := by
  unfold parse_all_from
  cases hf : data.length + 1 - pos with
  | zero => rfl
  | succ n => unfold parse_all_go; rw [h]

theorem parse_all_from_some {data : List Nat} {pos : Nat} {r : HwpRecord} {pos' : Nat}
    (h : parse_next data pos = some (r, pos')) :
    parse_all_from data pos = r :: parse_all_from data pos' := by
  have hb := parse_next_bounds h
  have hf : data.length + 1 - pos = (data.length - pos) + 1 := by omega
  have step : parse_all_go data pos ((data.length - pos) + 1) =
      r :: parse_all_go data pos' (data.length - pos) := by
    simp only [parse_all_go, h]
  calc parse_all_from data pos
      = parse_all_go data pos ((data.length - pos) + 1) := by
        unfold parse_all_from; rw [hf]
    _ = r :: parse_all_go data pos' (data.length - pos) := step
    _ = r :: parse_all_go data pos' (data.length + 1 - pos') := by
        rw [parse_all_go_congr data (data.length - pos) (data.length + 1 - pos') pos'
          (by omega) (by omega)]
    _ = r :: parse_all_from data pos' := rfl

theorem parse_all_go_payload {data : List Nat} :
    ∀ (fuel pos : Nat) (r : HwpRecord), r ∈ parse_all_go data pos fuel →
      r.data.length = r.size := by
  intro fuel
  induction fuel with
  | zero => intro pos r h; simp [parse_all_go] at h
  | succ n ih =>
    intro pos r h
    unfold parse_all_go at h
    cases hn : parse_next data pos with
    | none => rw [hn] at h; simp at h
    | some rp =>
      obtain ⟨r', pos'⟩ := rp
      rw [hn] at h
      rcases List.mem_cons.mp h with h | h
      · subst h; exact parse_next_payload_length hn
      · exact ih pos' r h

theorem parse_next_fields {data : List Nat} {pos : Nat} {r : HwpRecord} {pos' : Nat}
    (h : parse_next data pos = some (r, pos')) :
    r.tag_id = readU32 data pos % 1024 ∧
    r.level = readU32 data pos / 1024 % 1024 ∧
    (readU32 data pos / 1048576 % 4096 = 4095 →
      r.size = readU32 data (pos + 4) ∧
      r.data = (data.drop (pos + 8)).take r.size ∧ pos' = pos + 8 + r.size) ∧
    (readU32 data pos / 1048576 % 4096 ≠ 4095 →
      r.size = readU32 data pos / 1048576 % 4096 ∧
      r.data = (data.drop (pos + 4)).take r.size ∧ pos' = pos + 4 + r.size) := by
  by_cases h1 : data.length < pos + 4
  · rw [parse_next_header_short h1] at h; cases h
  by_cases h2 : readU32 data pos / 1048576 % 4096 = 4095
  · by_cases h3 : data.length < pos + 8 + readU32 data (pos + 4)
    · rw [parse_next_ext_none h2 h3] at h; cases h
    · rw [parse_next_ext_ok h2 (by omega)] at h
      obtain ⟨hr, hp⟩ := Prod.mk.injEq .. ▸ (Option.some.injEq _ _).mp h
      subst hr hp
      refine ⟨rfl, rfl, fun _ => ⟨rfl, rfl, rfl⟩, fun hne => absurd h2 hne⟩
  · by_cases h3 : data.length < pos + 4 + readU32 data pos / 1048576 % 4096
    · rw [parse_next_direct_none (by omega) h2 h3] at h; cases h
    · rw [parse_next_direct_ok h2 (by omega)] at h
      obtain ⟨hr, hp⟩ := Prod.mk.injEq .. ▸ (Option.some.injEq _ _).mp h
      subst hr hp
      exact ⟨rfl, rfl, fun heq => absurd heq h2, fun _ => ⟨rfl, rfl, rfl⟩⟩

/-- C1: `RecordParser::parse_all` repeatedly reads a little-endian u32 header
word, extracting `tag_id = word & 0x3FF`, `level = (word >> 10) & 0x3FF` and
`size_field = (word >> 20) & 0xFFF`; when `size_field = 0xFFF` the size is the
immediately following little-endian u32, otherwise it is `size_field`; when
fewer than 4 header bytes, fewer than 4 extended-size bytes, or fewer than
`size` payload bytes remain, decoding stops and the records decoded so far
are returned, and every returned record satisfies `payload.len() == size`. -/
theorem record_stream_decoding_spec :
    (∀ (data : List Nat) (pos : Nat), data.length < pos + 4 →
      parse_next data pos = none) ∧
    (∀ (data : List Nat) (pos : Nat) (r : HwpRecord) (pos' : Nat),
      parse_next data pos = some (r, pos') →
        r.tag_id = readU32 data pos % 1024 ∧
        r.level = readU32 data pos / 1024 % 1024 ∧
        r.data.length = r.size ∧
        (readU32 data pos / 1048576 % 4096 = 4095 →
          r.size = readU32 data (pos + 4) ∧
          r.data = (data.drop (pos + 8)).take r.size ∧ pos' = pos + 8 + r.size) ∧
        (readU32 data pos / 1048576 % 4096 ≠ 4095 →
          r.size = readU32 data pos / 1048576 % 4096 ∧
          r.data = (data.drop (pos + 4)).take r.size ∧ pos' = pos + 4 + r.size)) ∧
    (∀ (data : List Nat) (pos : Nat), readU32 data pos / 1048576 % 4096 = 4095 →
      data.length < pos + 8 + readU32 data (pos + 4) → parse_next data pos = none) ∧
    (∀ (data : List Nat) (pos : Nat), pos + 4 ≤ data.length →
      readU32 data pos / 1048576 % 4096 ≠ 4095 →
      data.length < pos + 4 + readU32 data pos / 1048576 % 4096 →
      parse_next data pos = none) ∧
    (∀ (data : List Nat) (pos : Nat), parse_next data pos = none →
      parse_all_from data pos = []) ∧
    (∀ (data : List Nat) (pos : Nat) (r : HwpRecord) (pos' : Nat),
      parse_next data pos = some (r, pos') →
      parse_all_from data pos = r :: parse_all_from data pos') ∧
    (∀ (data : List Nat) (r : HwpRecord), r ∈ parse_all data →
      r.data.length = r.size) := by
  refine ⟨fun _ _ h => parse_next_header_short h,
    fun data pos r pos' h => ?_,
    fun _ _ h2 h3 => parse_next_ext_none h2 h3,
    fun _ _ h1 h2 h3 => parse_next_direct_none h1 h2 h3,
    fun _ _ h => parse_all_from_none h,
    fun _ _ _ _ h => parse_all_from_some h,
    fun data r h => parse_all_go_payload _ _ r h⟩
  have hf := parse_next_fields h
  exact ⟨hf.1, hf.2.1, parse_next_payload_length h, hf.2.2.1, hf.2.2.2⟩

/-- C1 witness: a concrete 8-byte buffer holding one PARA_TEXT record of
size 4 decodes to a record whose payload length equals its size. -/
theorem record_stream_decoding_spec_witness :
    (⟨67, 0, 4, [1, 2, 3, 4]⟩ : HwpRecord).data.length =
      (⟨67, 0, 4, [1, 2, 3, 4]⟩ : HwpRecord).size :=
  record_stream_decoding_spec.2.2.2.2.2.2 [67, 0, 64, 0, 1, 2, 3, 4]
    ⟨67, 0, 4, [1, 2, 3, 4]⟩ (by decide)

theorem readU32_u32le (n : Nat) (rest : List Nat) (h : n < 4294967296) :
    readU32 (u32le n ++ rest) 0 = n := by
  simp only [readU32, readU8, u32le, List.cons_append, List.nil_append,
    List.getD_cons_zero, List.getD_cons_succ]
  omega

theorem readU32_u32le_at4 (n : Nat) (rest : List Nat) :
    readU32 (u32le n ++ rest) 4 = readU32 rest 0 := by
  simp only [readU32, readU8, u32le, List.cons_append, List.nil_append,
    List.getD_cons_zero, List.getD_cons_succ]

theorem u32le_length (n : Nat) : (u32le n).length = 4 := rfl

theorem encode_record_direct_length (tag level size : Nat) (payload : List Nat) :
    (encode_record_direct tag level size payload).length = 4 + payload.length := by
  simp [encode_record_direct, u32le]
  omega

theorem encode_record_extended_length (tag level size : Nat) (payload : List Nat) :
    (encode_record_extended tag level size payload).length = 8 + payload.length := by
  simp [encode_record_extended, u32le]
  omega

/-- C2 (amended): for `tag_id < 1024`, `level < 1024` and `size < 4095`, the
direct header encoding round-trips through `parse_next`; for any `size`
(in particular every `size ≥ 4095`), the extended encoding with the `0xFFF`
sentinel and a following little-endian u32 size word round-trips.  The
original claim's direct-path bound `size < 4096` fails at `size = 4095`,
where the size field is exactly the sentinel (see the counterexample). -/
theorem record_header_roundtrip :
    (∀ (tag level size : Nat) (payload : List Nat), tag < 1024 → level < 1024 →
      size < 4095 → payload.length = size →
      parse_next (encode_record_direct tag level size payload) 0 =
        some (⟨tag, level, size, payload⟩, 4 + size)) ∧
    (∀ (tag level size : Nat) (payload : List Nat), tag < 1024 → level < 1024 →
      size < 4294967296 → payload.length = size →
      parse_next (encode_record_extended tag level size payload) 0 =
        some (⟨tag, level, size, payload⟩, 8 + size)) := by
  constructor
  · intro tag level size payload htag hlevel hsize hlen
    have h32 : readU32 (encode_record_direct tag level size payload) 0 =
        tag + 1024 * level + 1048576 * size := by
      unfold encode_record_direct
      exact readU32_u32le _ _ (by omega)
    have hsf : readU32 (encode_record_direct tag level size payload) 0 / 1048576 % 4096 =
        size := by rw [h32]; omega
    have hL := encode_record_direct_length tag level size payload
    rw [parse_next_direct_ok (by rw [hsf]; omega) (by rw [hsf]; omega)]
    rw [hsf, h32]
    have e1 : (tag + 1024 * level + 1048576 * size) % 1024 = tag := by omega
    have e2 : (tag + 1024 * level + 1048576 * size) / 1024 % 1024 = level := by omega
    rw [e1, e2]
    have hdrop : (encode_record_direct tag level size payload).drop (0 + 4) = payload := by
      unfold encode_record_direct
      exact List.drop_left' (u32le_length _)
    rw [hdrop, ← hlen, List.take_length]
  · intro tag level size payload htag hlevel hsize hlen
    have h32 : readU32 (encode_record_extended tag level size payload) 0 =
        tag + 1024 * level + 1048576 * 4095 := by
      unfold encode_record_extended
      exact readU32_u32le _ _ (by omega)
    have hsf : readU32 (encode_record_extended tag level size payload) 0 / 1048576 % 4096 =
        4095 := by rw [h32]; omega
    have hext : readU32 (encode_record_extended tag level size payload) (0 + 4) = size := by
      unfold encode_record_extended
      rw [readU32_u32le_at4]
      exact readU32_u32le _ _ hsize
    have hL := encode_record_extended_length tag level size payload
    rw [parse_next_ext_ok hsf (by rw [hext]; omega)]
    rw [hext, h32]
    have e1 : (tag + 1024 * level + 1048576 * 4095) % 1024 = tag := by omega
    have e2 : (tag + 1024 * level + 1048576 * 4095) / 1024 % 1024 = level := by omega
    rw [e1, e2]
    have hdrop : (encode_record_extended tag level size payload).drop (0 + 8) = payload := by
      unfold encode_record_extended
      rw [show (0 + 8) = 4 + 4 from rfl, ← List.drop_drop]
      rw [List.drop_left' (u32le_length _), List.drop_left' (u32le_length _)]
    rw [hdrop, ← hlen, List.take_length]

theorem readU8_replicate_zero (n i : Nat) : readU8 (List.replicate n 0) i = 0 := by
  simp only [readU8, List.getD_eq_getElem?_getD, List.getElem?_replicate]
  split <;> rfl

/-- C2 counterexample: at `size = 4095` (which the claim's `size < 4096`
direct path includes) the direct encoding's size field is exactly the
`0xFFF` sentinel, so the decoder reads the first four payload bytes as an
extended size and returns the triple `(0, 0, 0)`, not `(0, 0, 4095)`. -/
theorem record_header_roundtrip_cex :
    (parse_next (encode_record_direct 0 0 4095 (List.replicate 4095 0)) 0).map
        (fun p => (p.1.tag_id, p.1.level, p.1.size)) =
      some ((0 : Nat), (0 : Nat), (0 : Nat)) ∧
    some ((0 : Nat), (0 : Nat), (0 : Nat)) ≠
      some ((0 : Nat), (0 : Nat), (4095 : Nat)) := by
  refine ⟨?_, by decide⟩
  have h32 : readU32 (encode_record_direct 0 0 4095 (List.replicate 4095 0)) 0 =
      1048576 * 4095 := by
    unfold encode_record_direct
    rw [readU32_u32le _ _ (by norm_num)]
  have hsf : readU32 (encode_record_direct 0 0 4095 (List.replicate 4095 0)) 0 /
      1048576 % 4096 = 4095 := by rw [h32]
  have hext : readU32 (encode_record_direct 0 0 4095 (List.replicate 4095 0)) (0 + 4) = 0 := by
    show readU32 (encode_record_direct 0 0 4095 (List.replicate 4095 0)) 4 = 0
    unfold encode_record_direct
    rw [readU32_u32le_at4]
    unfold readU32
    rw [readU8_replicate_zero, readU8_replicate_zero, readU8_replicate_zero,
      readU8_replicate_zero]
  have hL : (encode_record_direct 0 0 4095 (List.replicate 4095 0)).length = 4 + 4095 := by
    rw [encode_record_direct_length, List.length_replicate]
  rw [parse_next_ext_ok hsf (by rw [hext, hL]; omega)]
  rw [hext, h32]
  decide

/-- C2 witness: a concrete direct-path round trip (tag 67, level 2, size 4)
and a concrete extended-path round trip (size 5000). -/
theorem record_header_roundtrip_witness :
    parse_next (encode_record_direct 67 2 4 [9, 8, 7, 6]) 0 =
        some (⟨67, 2, 4, [9, 8, 7, 6]⟩, 8) ∧
    parse_next (encode_record_extended 67 2 5000 (List.replicate 5000 1)) 0 =
        some (⟨67, 2, 5000, List.replicate 5000 1⟩, 8 + 5000) :=
  ⟨record_header_roundtrip.1 67 2 4 [9, 8, 7, 6] (by decide) (by decide) (by decide)
      (by decide),
    record_header_roundtrip.2 67 2 5000 (List.replicate 5000 1) (by decide) (by decide)
      (by decide) (by rw [List.length_replicate])⟩

theorem last_style_le_none {p : Nat} :
    ∀ (m : List (Nat × Nat)), (∀ q ∈ m, ¬q.1 ≤ p) → last_style_le m p = none := by
  intro m
  induction m with
  | nil => intro _; rfl
  | cons a rest ih =>
    intro h
    obtain ⟨mp, sid⟩ := a
    unfold last_style_le
    rw [ih (fun q hq => h q (List.mem_cons_of_mem _ hq))]
    rw [if_neg (h (mp, sid) (List.mem_cons_self _ _))]

theorem find_style_go_eq {p : Nat} :
    ∀ (m : List (Nat × Nat)), List.Pairwise (fun a b : Nat × Nat => a.1 ≤ b.1) m →
      ∀ (cur : Option Nat), find_style_go m p cur =
        match last_style_le m p with
        | some s => some s
        | none => cur := by
  intro m
  induction m with
  | nil => intro _ cur; rfl
  | cons a rest ih =>
    intro hp cur
    obtain ⟨mp, sid⟩ := a
    obtain ⟨h1, h2⟩ := List.pairwise_cons.mp hp
    unfold find_style_go last_style_le
    by_cases hle : mp ≤ p
    · rw [if_pos hle, ih h2 (some sid)]
      cases last_style_le rest p <;> simp [hle]
    · rw [if_neg hle]
      rw [last_style_le_none rest (fun q hq => by
        have := h1 q hq
        omega)]
      simp [hle]

/-- C4: with a `(position, shape_id)` mapping sorted ascending by position,
`find_style_for_position` (hence `extract_para_text_formatted`) styles the
character at position `p` with the shape id of the last pair whose position
is ≤ `p` (no pair ⇒ no style), and the UTF-16LE text "Hello World" with
mapping `{(0,0),(6,1)}`, shape 0 plain and shape 1 bold, reconstructs to
exactly "Hello **World**". -/
theorem formatted_styles_spec :
    (∀ (m : List (Nat × Nat)), List.Pairwise (fun a b : Nat × Nat => a.1 ≤ b.1) m →
      ∀ (p : Nat), find_style_for_position p m = last_style_le m p) ∧
    extract_para_text_formatted
        [72, 0, 101, 0, 108, 0, 108, 0, 111, 0, 32, 0, 87, 0, 111, 0, 114, 0, 108, 0, 100, 0]
        (some [(0, 0), (6, 1)])
        [(0, ⟨false, false, false, false⟩), (1, ⟨true, false, false, false⟩)] =
      "Hello **World**" := by
  refine ⟨fun m hm p => ?_, by decide⟩
  unfold find_style_for_position
  rw [find_style_go_eq m hm none]
  cases last_style_le m p <;> rfl

/-- C4 witness: the style lookup agrees with the last-pair-≤ rule on the
concrete sorted mapping `[(0,0),(6,1)]` at position 7. -/
theorem formatted_styles_spec_witness :
    find_style_for_position 7 [(0, 0), (6, 1)] = last_style_le [(0, 0), (6, 1)] 7 :=
  formatted_styles_spec.1 [(0, 0), (6, 1)] (by decide) 7

/-- C5: the claim says code units 0x0B (TABLE) and 0x0C (DRAWING) consume
14 extra payload bytes and emit no character, but the source's range guard
`0..=8 | 0x10..=0x1F` excludes 11 and 12, so its inner `CHAR_TABLE` /
`CHAR_DRAWING` test is dead code: 0x0B falls through to the
normal-character arm, is emitted as the literal character U+000B, and the
following bytes are decoded as ordinary text.  (For contrast, the 0x01
inline control does skip 14 bytes while advancing the position by one.) -/
theorem inline_ctrl_skip_divergence :
    extract_para_text_with_positions [11, 0, 65, 65] =
      [(0, Char.ofNat 11), (1, Char.ofNat 16705)] ∧
    extract_para_text [11, 0, 65, 65] = String.mk [Char.ofNat 11, Char.ofNat 16705] ∧
    extract_para_text_with_positions
        ([1, 0] ++ [65, 65, 65, 65, 65, 65, 65, 65, 65, 65, 65, 65, 65, 65] ++ [65, 0]) =
      [(1, Char.ofNat 65)] := by
  refine ⟨by decide, by decide, by decide⟩

/-- C6 counterexample: (i) a pending paragraph whose finalized string is
the non-empty text " " is dropped, because the source pushes only when
`text.trim()` is non-empty, not when the text is non-empty; (ii) a
PARA_HEADER met with no pending paragraph does not clear the pending
char-shape mapping, so a preceding PARA_CHAR_SHAPE still styles the next
paragraph ("**Hi**" instead of the "Hi" the claim implies). -/
theorem paragraph_reconstruction_cex :
    parse_section_records_formatted [⟨67, 0, 2, [32, 0]⟩] [] = [] ∧
    extract_para_text_formatted [32, 0] none [] = " " ∧
    (" " : String) ≠ "" ∧
    parse_section_records_formatted
        [⟨68, 0, 8, [0, 0, 0, 0, 1, 0, 0, 0]⟩, ⟨66, 0, 0, []⟩, ⟨67, 0, 4, [72, 0, 105, 0]⟩]
        [(1, ⟨true, false, false, false⟩)] = ["**Hi**"] ∧
    ("**Hi**" : String) ≠ "Hi" := by
  refine ⟨by decide, by decide, by decide, by decide, by decide⟩

/-- C6 (amended): a pending paragraph is finalized exactly when a
PARA_HEADER record is encountered or the record list ends; the finalized
formatted string is added to the output exactly when it contains a
non-whitespace character (`trim()` non-empty); on a PARA_HEADER that
flushes a pending paragraph the pending char-shape mapping is also
cleared, while a PARA_HEADER with no pending paragraph changes nothing
(in particular it keeps the pending mapping); PARA_TEXT stores its payload
as the pending paragraph and PARA_CHAR_SHAPE stores the parsed mapping;
all other tags leave the state unchanged. -/
theorem paragraph_reconstruction_spec :
    (∀ (char_shapes : List (Nat × CharShape)) (ps : List String) (td : List Nat)
      (m : Option (List (Nat × Nat))) (r : HwpRecord), r.tag_id = 66 →
      fmt_step char_shapes ⟨ps, some td, m⟩ r =
        ⟨if is_blank (extract_para_text_formatted td m char_shapes) then ps
          else ps ++ [extract_para_text_formatted td m char_shapes], none, none⟩) ∧
    (∀ (char_shapes : List (Nat × CharShape)) (ps : List String)
      (m : Option (List (Nat × Nat))) (r : HwpRecord), r.tag_id = 66 →
      fmt_step char_shapes ⟨ps, none, m⟩ r = ⟨ps, none, m⟩) ∧
    (∀ (char_shapes : List (Nat × CharShape)) (ps : List String) (td : List Nat)
      (m : Option (List (Nat × Nat))),
      fmt_finalize char_shapes ⟨ps, some td, m⟩ =
        if is_blank (extract_para_text_formatted td m char_shapes) then ps
        else ps ++ [extract_para_text_formatted td m char_shapes]) ∧
    (∀ (char_shapes : List (Nat × CharShape)) (ps : List String)
      (m : Option (List (Nat × Nat))),
      fmt_finalize char_shapes ⟨ps, none, m⟩ = ps) ∧
    (∀ (char_shapes : List (Nat × CharShape)) (st : FmtState) (r : HwpRecord),
      r.tag_id = 67 →
      fmt_step char_shapes st r = { st with current_text := some r.data }) ∧
    (∀ (char_shapes : List (Nat × CharShape)) (st : FmtState) (r : HwpRecord),
      r.tag_id = 68 →
      fmt_step char_shapes st r = { st with current_mapping := parse_para_char_shape r.data }) ∧
    (∀ (char_shapes : List (Nat × CharShape)) (st : FmtState) (r : HwpRecord),
      r.tag_id ≠ 66 → r.tag_id ≠ 67 → r.tag_id ≠ 68 →
      fmt_step char_shapes st r = st) := by
  refine ⟨?_, ?_, ?_, ?_, ?_, ?_, ?_⟩
  · intro cs ps td m r hr
    simp [fmt_step, hr]
  · intro cs ps m r hr
    simp [fmt_step, hr]
  · intro cs ps td m
    simp [fmt_finalize]
  · intro cs ps m
    simp [fmt_finalize]
  · intro cs st r hr
    simp [fmt_step, hr]
  · intro cs st r hr
    simp [fmt_step, hr]
  · intro cs st r h66 h67 h68
    simp [fmt_step, h66, h67, h68]

/-- C6 witness: flushing a pending blank paragraph on a concrete
PARA_HEADER record. -/
theorem paragraph_reconstruction_spec_witness :
    fmt_step [] ⟨[], some [32, 0], none⟩ ⟨66, 0, 0, []⟩ =
      ⟨if is_blank (extract_para_text_formatted [32, 0] none []) then []
        else [] ++ [extract_para_text_formatted [32, 0] none []], none, none⟩ :=
  paragraph_reconstruction_spec.1 [] [] [32, 0] none ⟨66, 0, 0, []⟩ rfl

theorem organize_go_congr (cols : Nat) (hc : 0 < cols) :
    ∀ (f₁ f₂ : Nat) (l : List String), l.length ≤ f₁ → l.length ≤ f₂ →
      organize_go cols f₁ l = organize_go cols f₂ l := by
  intro f₁
  induction f₁ with
  | zero =>
    intro f₂ l h₁ _
    have hl : l = [] := List.eq_nil_of_length_eq_zero (by omega)
    subst hl
    cases f₂ <;> rfl
  | succ n ih =>
    intro f₂ l h₁ h₂
    cases l with
    | nil => cases f₂ <;> rfl
    | cons a rest =>
      match f₂, h₂ with
      | m + 1, hm =>
        show organize_go cols (n + 1) (a :: rest) = organize_go cols (m + 1) (a :: rest)
        simp only [organize_go]
        congr 1
        apply ih
        · rw [List.length_drop, List.length_cons]
          have hn : rest.length + 1 ≤ n + 1 := by
            have := h₁; rw [List.length_cons] at this; omega
          omega
        · rw [List.length_drop, List.length_cons]
          have hm2 : rest.length + 1 ≤ m + 1 := by
            have := hm; rw [List.length_cons] at this; omega
          omega

theorem organize_cells_nil (cols : Nat) : organize_cells [] cols = [] := by
  unfold organize_cells
  split <;> rfl

theorem organize_cells_cons {cols : Nat} (hc : 0 < cols) (a : String) (rest : List String) :
    organize_cells (a :: rest) cols =
      (a :: rest).take cols :: organize_cells ((a :: rest).drop cols) cols := by
  have lhs : organize_cells (a :: rest) cols =
      organize_go cols (rest.length + 1) (a :: rest) := by
    unfold organize_cells
    rw [if_neg (by omega), List.length_cons]
  have rhs : organize_cells ((a :: rest).drop cols) cols =
      organize_go cols ((a :: rest).drop cols).length ((a :: rest).drop cols) := by
    unfold organize_cells
    rw [if_neg (by omega)]
  rw [lhs, rhs]
  simp only [organize_go]
  congr 1
  apply organize_go_congr cols hc
  · rw [List.length_drop, List.length_cons]; omega
  · exact Nat.le_refl _

theorem organize_cells_shape :
    ∀ (rows cols : Nat) (buf : List String), 0 < cols → buf.length = rows * cols →
      (organize_cells buf cols).length = rows ∧
      ∀ row ∈ organize_cells buf cols, row.length = cols := by
  intro rows
  induction rows with
  | zero =>
    intro cols buf _ hl
    have hb : buf = [] := List.eq_nil_of_length_eq_zero (by omega)
    subst hb
    rw [organize_cells_nil]
    exact ⟨rfl, by simp⟩
  | succ n ih =>
    intro cols buf hc hl
    have hsm : (n + 1) * cols = n * cols + cols := Nat.succ_mul n cols
    cases buf with
    | nil =>
      exfalso
      simp only [List.length_nil] at hl
      omega
    | cons a rest =>
      rw [organize_cells_cons hc a rest]
      have hlen : (a :: rest).length = rest.length + 1 := List.length_cons a rest
      have hdl : ((a :: rest).drop cols).length = n * cols := by
        rw [List.length_drop, hlen]
        rw [hlen] at hl
        omega
      obtain ⟨ihl, ihm⟩ := ih cols _ hc hdl
      refine ⟨by rw [List.length_cons, ihl], ?_⟩
      intro row hrow
      rcases List.mem_cons.mp hrow with h | h
      · subst h
        rw [List.length_take, hlen]
        rw [hlen] at hl
        omega
      · exact ihm row h

theorem et_close_cases (st : TState) :
    ((et_close st).tables = st.tables ∧ (et_close st).current_spans = st.current_spans) ∨
    (∃ t0 : TableData, (et_close st).tables = st.tables ++
        [{ t0 with
          cells := organize_cells st.current_cells t0.cols,
          cell_spans := st.current_spans }] ∧
      (et_close st).current_spans = []) := by
  unfold et_close
  cases st.current_table with
  | none => exact Or.inl ⟨rfl, rfl⟩
  | some t0 => exact Or.inr ⟨t0, rfl, rfl⟩

theorem et_step_cases (st : TState) (r : HwpRecord) :
    ((et_step st r).tables = st.tables ∧ (et_step st r).current_spans = st.current_spans) ∨
    ((et_step st r).tables = (et_close st).tables ∧
      (et_step st r).current_spans = (et_close st).current_spans) ∨
    (∃ (span : CellSpan) (rows cols : Nat), parse_cell_list_header r.data = some span ∧
      st.table_info = some (rows, cols) ∧
      (1 < span.row_span ∨ 1 < span.col_span) ∧
      (et_step st r).tables = st.tables ∧
      (et_step st r).current_spans = st.current_spans ++
        [⟨st.cell_index / cols % 65536, st.cell_index % cols % 65536,
          span.row_span, span.col_span⟩]) ∨
    (∃ t0 : TableData, (et_step st r).tables = st.tables ++
        [{ t0 with
          cells := organize_cells (st.current_cells ++ [extract_para_text r.data]) t0.cols,
          cell_spans := st.current_spans }] ∧
      (et_step st r).current_spans = []) := by
  simp only [et_step]
  split
  · -- TABLE record
    split
    · exact Or.inr (Or.inl ⟨rfl, rfl⟩)
    · exact Or.inr (Or.inl ⟨rfl, rfl⟩)
  · split
    · -- LIST_HEADER inside a table
      split
      · rename_i rows cols heq
        split
        · rename_i span hpc
          split
          · rename_i hsp
            exact Or.inr (Or.inr (Or.inl ⟨span, rows, cols, hpc, heq, hsp, rfl, rfl⟩))
          · exact Or.inl ⟨rfl, rfl⟩
        · exact Or.inl ⟨rfl, rfl⟩
      · exact Or.inl ⟨rfl, rfl⟩
    · split
      · -- PARA_TEXT inside a table
        split
        · split
          · split
            · rename_i t0 hct
              exact Or.inr (Or.inr (Or.inr ⟨t0, rfl, rfl⟩))
            · exact Or.inl ⟨rfl, rfl⟩
          · exact Or.inl ⟨rfl, rfl⟩
        · exact Or.inl ⟨rfl, rfl⟩
      · exact Or.inl ⟨rfl, rfl⟩

theorem cells_inv_close {st : TState}
    (h : ∀ t ∈ st.tables, ∃ buf, t.cells = organize_cells buf t.cols) :
    ∀ t ∈ (et_close st).tables, ∃ buf, t.cells = organize_cells buf t.cols := by
  rcases et_close_cases st with ⟨htb, -⟩ | ⟨t0, htb, -⟩
  · rw [htb]; exact h
  · rw [htb]
    intro t ht
    rcases List.mem_append.mp ht with h1 | h1
    · exact h t h1
    · rw [List.mem_singleton] at h1
      subst h1
      exact ⟨st.current_cells, rfl⟩

theorem cells_inv_step {st : TState} {r : HwpRecord}
    (h : ∀ t ∈ st.tables, ∃ buf, t.cells = organize_cells buf t.cols) :
    ∀ t ∈ (et_step st r).tables, ∃ buf, t.cells = organize_cells buf t.cols := by
  rcases et_step_cases st r with ⟨htb, -⟩ | ⟨htb, -⟩ |
    ⟨span, rows, cols, -, -, -, htb, -⟩ | ⟨t0, htb, -⟩
  · rw [htb]; exact h
  · rw [htb]; exact cells_inv_close h
  · rw [htb]; exact h
  · rw [htb]
    intro t ht
    rcases List.mem_append.mp ht with h1 | h1
    · exact h t h1
    · rw [List.mem_singleton] at h1
      subst h1
      exact ⟨st.current_cells ++ [extract_para_text r.data], rfl⟩

theorem cells_inv_fold :
    ∀ (l : List HwpRecord) (st : TState),
      (∀ t ∈ st.tables, ∃ buf, t.cells = organize_cells buf t.cols) →
      ∀ t ∈ (l.foldl et_step st).tables, ∃ buf, t.cells = organize_cells buf t.cols := by
  intro l
  induction l with
  | nil => intro st h; exact h
  | cons r rest ih => intro st h; exact ih _ (cells_inv_step h)

/-- C7: whenever `extract_tables` closes a table (new TABLE record, cell
count reached, or scan end) the emitted cells are `organize_cells` of the
collected flat cell strings with the table's column count; a buffer of
exactly `rows * cols` strings partitions into `rows` rows of `cols`
strings each, row-major; and `organize_cells ["A","B","C","D"] 2`
is `[["A","B"],["C","D"]]`. -/
theorem table_cells_partition_spec :
    (∀ (records : List HwpRecord), ∀ t ∈ extract_tables records,
      ∃ buf, t.cells = organize_cells buf t.cols) ∧
    (∀ (rows cols : Nat) (buf : List String), 0 < cols → buf.length = rows * cols →
      (organize_cells buf cols).length = rows ∧
      ∀ row ∈ organize_cells buf cols, row.length = cols) ∧
    organize_cells ["A", "B", "C", "D"] 2 = [["A", "B"], ["C", "D"]] := by
  refine ⟨?_, fun rows cols buf hc hl => organize_cells_shape rows cols buf hc hl, by decide⟩
  intro records t ht
  have hinit : ∀ t ∈ extract_tables_init.tables, ∃ buf, t.cells = organize_cells buf t.cols := by
    intro t ht
    simp [extract_tables_init] at ht
  exact cells_inv_close (cells_inv_fold records extract_tables_init hinit) t ht

/-- C7 witness: the shape property at the concrete 2×2 buffer. -/
theorem table_cells_partition_spec_witness :
    (organize_cells ["A", "B", "C", "D"] 2).length = 2 ∧
      ∀ row ∈ organize_cells ["A", "B", "C", "D"] 2, row.length = 2 :=
  table_cells_partition_spec.2.1 2 2 ["A", "B", "C", "D"] (by decide) (by decide)

theorem parse_cell_list_header_short {data : List Nat} (h : data.length < 26) :
    parse_cell_list_header data = none := by
  unfold parse_cell_list_header
  rw [if_pos h]

theorem parse_cell_list_header_ok {data : List Nat} (h : 26 ≤ data.length) :
    parse_cell_list_header data =
      some ⟨0, 0, max (readU16 data 24) 1, max (readU16 data 22) 1⟩ := by
  unfold parse_cell_list_header
  rw [if_neg (by omega)]

theorem parse_cell_list_header_ge1 {data : List Nat} {span : CellSpan}
    (h : parse_cell_list_header data = some span) :
    1 ≤ span.row_span ∧ 1 ≤ span.col_span := by
  by_cases hl : data.length < 26
  · rw [parse_cell_list_header_short hl] at h; cases h
  · rw [parse_cell_list_header_ok (by omega)] at h
    have hs := (Option.some.injEq _ _).mp h
    subst hs
    exact ⟨Nat.le_max_right _ 1, Nat.le_max_right _ 1⟩

theorem spans_inv_close {st : TState}
    (h1 : ∀ s ∈ st.current_spans, span_ok s)
    (h2 : ∀ t ∈ st.tables, ∀ s ∈ t.cell_spans, span_ok s) :
    (∀ s ∈ (et_close st).current_spans, span_ok s) ∧
    (∀ t ∈ (et_close st).tables, ∀ s ∈ t.cell_spans, span_ok s) := by
  rcases et_close_cases st with ⟨htb, hsp⟩ | ⟨t0, htb, hsp⟩
  · rw [htb, hsp]; exact ⟨h1, h2⟩
  · rw [htb, hsp]
    refine ⟨by simp, ?_⟩
    intro t ht
    rcases List.mem_append.mp ht with hm | hm
    · exact h2 t hm
    · rw [List.mem_singleton] at hm
      subst hm
      exact h1

theorem spans_inv_step {st : TState} {r : HwpRecord}
    (h1 : ∀ s ∈ st.current_spans, span_ok s)
    (h2 : ∀ t ∈ st.tables, ∀ s ∈ t.cell_spans, span_ok s) :
    (∀ s ∈ (et_step st r).current_spans, span_ok s) ∧
    (∀ t ∈ (et_step st r).tables, ∀ s ∈ t.cell_spans, span_ok s) := by
  rcases et_step_cases st r with ⟨htb, hsp⟩ | ⟨htb, hsp⟩ |
    ⟨span, rows, cols, hpc, hti, hcond, htb, hsp⟩ | ⟨t0, htb, hsp⟩
  · rw [htb, hsp]; exact ⟨h1, h2⟩
  · rw [htb, hsp]; exact spans_inv_close h1 h2
  · rw [htb, hsp]
    refine ⟨?_, h2⟩
    intro s hs
    rcases List.mem_append.mp hs with hm | hm
    · exact h1 s hm
    · rw [List.mem_singleton] at hm
      subst hm
      obtain ⟨hr1, hc1⟩ := parse_cell_list_header_ge1 hpc
      exact ⟨hr1, hc1, hcond⟩
  · rw [htb, hsp]
    refine ⟨by simp, ?_⟩
    intro t ht
    rcases List.mem_append.mp ht with hm | hm
    · exact h2 t hm
    · rw [List.mem_singleton] at hm
      subst hm
      exact h1

theorem spans_inv_fold :
    ∀ (l : List HwpRecord) (st : TState),
      (∀ s ∈ st.current_spans, span_ok s) →
      (∀ t ∈ st.tables, ∀ s ∈ t.cell_spans, span_ok s) →
      (∀ s ∈ (l.foldl et_step st).current_spans, span_ok s) ∧
      (∀ t ∈ (l.foldl et_step st).tables, ∀ s ∈ t.cell_spans, span_ok s) := by
  intro l
  induction l with
  | nil => intro st h1 h2; exact ⟨h1, h2⟩
  | cons r rest ih =>
    intro st h1 h2
    obtain ⟨h1', h2'⟩ := spans_inv_step h1 h2
    exact ih _ h1' h2'

/-- C8: every `CellSpan` in any table returned by `extract_tables` has
`row_span ≥ 1`, `col_span ≥ 1` and is genuinely merged (`row_span > 1` or
`col_span > 1`); `parse_cell_list_header` reads the spans little-endian
from offsets [22..24) and [24..26) clamped to minimum 1 (and fails below
26 bytes); and on a LIST_HEADER inside an open table `cell_index` is
incremented exactly once whether or not a span is stored, with
`row = cell_index / cols` and `col = cell_index % cols` (u16 casts). -/
theorem table_cell_spans_spec :
    (∀ (records : List HwpRecord), ∀ t ∈ extract_tables records, ∀ s ∈ t.cell_spans,
      1 ≤ s.row_span ∧ 1 ≤ s.col_span ∧ (1 < s.row_span ∨ 1 < s.col_span)) ∧
    (∀ (data : List Nat), data.length < 26 → parse_cell_list_header data = none) ∧
    (∀ (data : List Nat), 26 ≤ data.length →
      parse_cell_list_header data =
        some ⟨0, 0, max (readU16 data 24) 1, max (readU16 data 22) 1⟩) ∧
    (∀ (st : TState) (r : HwpRecord) (rows cols : Nat), r.tag_id = 72 →
      st.in_table = true → st.table_info = some (rows, cols) →
      (et_step st r).cell_index = st.cell_index + 1 ∧
      (et_step st r).current_spans = st.current_spans ++
        (match parse_cell_list_header r.data with
         | some span =>
           if 1 < span.row_span ∨ 1 < span.col_span then
             [⟨st.cell_index / cols % 65536, st.cell_index % cols % 65536,
               span.row_span, span.col_span⟩]
           else []
         | none => [])) := by
  refine ⟨?_, fun _ h => parse_cell_list_header_short h,
    fun _ h => parse_cell_list_header_ok h, ?_⟩
  · intro records t ht s hs
    have hinit1 : ∀ s ∈ extract_tables_init.current_spans, span_ok s := by
      intro s hs'
      simp [extract_tables_init] at hs'
    have hinit2 : ∀ t ∈ extract_tables_init.tables, ∀ s ∈ t.cell_spans, span_ok s := by
      intro t ht'
      simp [extract_tables_init] at ht'
    obtain ⟨hf1, hf2⟩ := spans_inv_fold records extract_tables_init hinit1 hinit2
    obtain ⟨-, hc2⟩ := spans_inv_close hf1 hf2
    exact hc2 t ht s hs
  · intro st r rows cols h72 hin hti
    have h77 : ¬r.tag_id = 77 := by omega
    simp only [et_step, if_neg h77, hti]
    rw [if_pos (show r.tag_id = 72 ∧ st.in_table = true from ⟨h72, hin⟩)]
    cases hpc : parse_cell_list_header r.data with
    | none => simp [hpc]
    | some span =>
      by_cases hc : 1 < span.row_span ∨ 1 < span.col_span
      · simp [hpc, hc]
      · simp [hpc, hc]

/-- C8 witness: a concrete LIST_HEADER record with col_span = row_span = 2
inside an open 2×2 table increments the cell index and stores one span. -/
theorem table_cell_spans_spec_witness :
    (et_step ⟨[], none, [], [], true, some (2, 2), 0⟩
        ⟨72, 0, 26, List.replicate 22 0 ++ [2, 0, 2, 0]⟩).cell_index =
      (⟨[], none, [], [], true, some (2, 2), 0⟩ : TState).cell_index + 1 ∧
    (et_step ⟨[], none, [], [], true, some (2, 2), 0⟩
        ⟨72, 0, 26, List.replicate 22 0 ++ [2, 0, 2, 0]⟩).current_spans =
      (⟨[], none, [], [], true, some (2, 2), 0⟩ : TState).current_spans ++
        (match parse_cell_list_header
            (⟨72, 0, 26, List.replicate 22 0 ++ [2, 0, 2, 0]⟩ : HwpRecord).data with
         | some span =>
           if 1 < span.row_span ∨ 1 < span.col_span then
             [⟨(⟨[], none, [], [], true, some (2, 2), 0⟩ : TState).cell_index / 2 % 65536,
               (⟨[], none, [], [], true, some (2, 2), 0⟩ : TState).cell_index % 2 % 65536,
               span.row_span, span.col_span⟩]
           else []
         | none => []) :=
  table_cell_spans_spec.2.2.2 ⟨[], none, [], [], true, some (2, 2), 0⟩
    ⟨72, 0, 26, List.replicate 22 0 ++ [2, 0, 2, 0]⟩ 2 2 rfl rfl rfl

theorem readU8_of_take4 {data l : List Nat} (ht : data.take 4 = l) {i : Nat} (hi : i < 4) :
    readU8 data i = readU8 l i := by
  unfold readU8
  rw [List.getD_eq_getElem?_getD, List.getD_eq_getElem?_getD, ← ht,
    List.getElem?_take_of_lt hi]

/-- C3 counterexample: the 4-byte JPEG prefix `FF D8 FF E0` alone yields
the empty format, because the source requires at least 8 bytes before any
magic-byte test, not 4. -/
theorem detect_image_format_cex :
    detect_image_format [255, 216, 255, 224] = "" ∧ ("" : String) ≠ "jpeg" := by
  exact ⟨by decide, by decide⟩

/-- C3 (amended): buffers of fewer than 8 bytes (not 4) yield the empty
format; for buffers of at least 8 bytes the magic prefixes map, in source
priority order, to "jpeg" (`FF D8 FF`), "png" (`89 50 4E 47`), "gif"
(`47 49 46`), "bmp" (`42 4D`), "wmf" (`D7 CD C6 9A`), "emf"
(`01 00 00 00`), and "webp" (`RIFF` at 0 plus `WEBP` at 8, requiring at
least 12 bytes); anything else yields the empty format, and images with an
empty format are dropped from `extract_images`. -/
theorem image_sniffing_spec :
    (∀ (data : List Nat), data.length < 8 → detect_image_format data = "") ∧
    (∀ (data : List Nat), 8 ≤ data.length → readU8 data 0 = 255 → readU8 data 1 = 216 →
      readU8 data 2 = 255 → detect_image_format data = "jpeg") ∧
    (∀ (data : List Nat), 8 ≤ data.length → readU8 data 0 = 137 → readU8 data 1 = 80 →
      readU8 data 2 = 78 → readU8 data 3 = 71 → detect_image_format data = "png") ∧
    (∀ (data : List Nat), 8 ≤ data.length → readU8 data 0 = 71 → readU8 data 1 = 73 →
      readU8 data 2 = 70 → detect_image_format data = "gif") ∧
    (∀ (data : List Nat), 8 ≤ data.length → readU8 data 0 = 66 → readU8 data 1 = 77 →
      detect_image_format data = "bmp") ∧
    (∀ (data : List Nat), 8 ≤ data.length → readU8 data 0 = 215 → readU8 data 1 = 205 →
      readU8 data 2 = 198 → readU8 data 3 = 154 → detect_image_format data = "wmf") ∧
    (∀ (data : List Nat), 8 ≤ data.length → readU8 data 0 = 1 → readU8 data 1 = 0 →
      readU8 data 2 = 0 → readU8 data 3 = 0 → detect_image_format data = "emf") ∧
    (∀ (data : List Nat), 8 ≤ data.length → data.take 4 = [82, 73, 70, 70] →
      12 ≤ data.length → (data.drop 8).take 4 = [87, 69, 66, 80] →
      detect_image_format data = "webp") ∧
    (∀ (data : List Nat),
      ¬(readU8 data 0 = 255 ∧ readU8 data 1 = 216 ∧ readU8 data 2 = 255) →
      ¬(readU8 data 0 = 137 ∧ readU8 data 1 = 80 ∧ readU8 data 2 = 78 ∧
        readU8 data 3 = 71) →
      ¬(readU8 data 0 = 71 ∧ readU8 data 1 = 73 ∧ readU8 data 2 = 70) →
      ¬(readU8 data 0 = 66 ∧ readU8 data 1 = 77) →
      ¬(readU8 data 0 = 215 ∧ readU8 data 1 = 205 ∧ readU8 data 2 = 198 ∧
        readU8 data 3 = 154) →
      ¬(readU8 data 0 = 1 ∧ readU8 data 1 = 0 ∧ readU8 data 2 = 0 ∧ readU8 data 3 = 0) →
      ¬(data.take 4 = [82, 73, 70, 70] ∧ 12 ≤ data.length ∧
        (data.drop 8).take 4 = [87, 69, 66, 80]) →
      detect_image_format data = "") ∧
    (∀ (streams : List (String × List Nat)), ∀ img ∈ extract_images streams,
      img.format ≠ "" ∧ img.format = detect_image_format img.data) := by
  refine ⟨?_, ?_, ?_, ?_, ?_, ?_, ?_, ?_, ?_, ?_⟩
  · intro data h
    unfold detect_image_format
    rw [if_pos h]
  · intro data hlen h0 h1 h2
    unfold detect_image_format
    rw [if_neg (by omega), if_pos ⟨h0, h1, h2⟩]
  · intro data hlen h0 h1 h2 h3
    unfold detect_image_format
    rw [if_neg (by omega), if_neg (by omega), if_pos ⟨h0, h1, h2, h3⟩]
  · intro data hlen h0 h1 h2
    unfold detect_image_format
    rw [if_neg (by omega), if_neg (by omega), if_neg (by omega), if_pos ⟨h0, h1, h2⟩]
  · intro data hlen h0 h1
    unfold detect_image_format
    rw [if_neg (by omega), if_neg (by omega), if_neg (by omega), if_neg (by omega),
      if_pos ⟨h0, h1⟩]
  · intro data hlen h0 h1 h2 h3
    unfold detect_image_format
    rw [if_neg (by omega), if_neg (by omega), if_neg (by omega), if_neg (by omega),
      if_neg (by omega), if_pos ⟨h0, h1, h2, h3⟩]
  · intro data hlen h0 h1 h2 h3
    unfold detect_image_format
    rw [if_neg (by omega), if_neg (by omega), if_neg (by omega), if_neg (by omega),
      if_neg (by omega), if_neg (by omega), if_pos ⟨h0, h1, h2, h3⟩]
  · intro data hlen ht4 h12 ht8
    have h0 : readU8 data 0 = 82 := by rw [readU8_of_take4 ht4 (by omega)]; rfl
    unfold detect_image_format
    rw [if_neg (by omega), if_neg (by omega), if_neg (by omega), if_neg (by omega),
      if_neg (by omega), if_neg (by omega), if_neg (by omega), if_pos ⟨ht4, h12, ht8⟩]
  · intro data h1 h2 h3 h4 h5 h6 h7
    unfold detect_image_format
    by_cases hlen : data.length < 8
    · rw [if_pos hlen]
    · rw [if_neg hlen, if_neg h1, if_neg h2, if_neg h3, if_neg h4, if_neg h5, if_neg h6,
        if_neg h7]
  · intro streams img himg
    unfold extract_images at himg
    rcases List.mem_filterMap.mp himg with ⟨nd, -, hf⟩
    dsimp only at hf
    by_cases he : (detect_image_format nd.2).isEmpty
    · rw [if_pos he] at hf; cases hf
    · rw [if_neg he] at hf
      have heq := (Option.some.injEq _ _).mp hf
      subst heq
      rw [String.isEmpty_iff] at he
      exact ⟨he, rfl⟩

/-- C3 witness: an 8-byte JPEG buffer sniffs as "jpeg". -/
theorem image_sniffing_spec_witness :
    detect_image_format [255, 216, 255, 224, 0, 16, 74, 70] = "jpeg" :=
  image_sniffing_spec.2.1 [255, 216, 255, 224, 0, 16, 74, 70] (by decide) (by decide)
    (by decide) (by decide)

theorem div_mod_bne_testBit (n i : Nat) : (n / 2 ^ i % 2 != 0) = n.testBit i := by
  rw [Nat.testBit_to_div_mod]
  rcases Nat.mod_two_eq_zero_or_one (n / 2 ^ i) with h | h <;> simp [h]

theorem readU8_drop_take (h : List Nat) {i : Nat} (hi : i < 4) :
    readU8 ((h.drop 36).take 4) i = readU8 h (36 + i) := by
  unfold readU8
  rw [List.getD_eq_getElem?_getD, List.getD_eq_getElem?_getD,
    List.getElem?_take_of_lt hi, List.getElem?_drop]

theorem readU32_drop_take (h : List Nat) :
    readU32 ((h.drop 36).take 4) 0 = readU32 h 36 := by
  unfold readU32
  rw [readU8_drop_take h (by omega), readU8_drop_take h (by omega),
    readU8_drop_take h (by omega), readU8_drop_take h (by omega)]

/-- C9: flags are decoded from bytes [36,40) of the FileHeader as a
little-endian u32 with bit i mapping to flag i of the 17-flag table; an
absent FileHeader or one shorter than 40 bytes leaves the default flags,
in which only `compressed` is true, and a flags value is produced (opening
succeeds) in every case. -/
theorem file_flags_spec :
    (∀ (data : List Nat), 4 ≤ data.length →
      HwpFlags.from_bytes data =
        ⟨(readU32 data 0).testBit 0, (readU32 data 0).testBit 1,
          (readU32 data 0).testBit 2, (readU32 data 0).testBit 3,
          (readU32 data 0).testBit 4, (readU32 data 0).testBit 5,
          (readU32 data 0).testBit 6, (readU32 data 0).testBit 7,
          (readU32 data 0).testBit 8, (readU32 data 0).testBit 9,
          (readU32 data 0).testBit 10, (readU32 data 0).testBit 11,
          (readU32 data 0).testBit 12, (readU32 data 0).testBit 13,
          (readU32 data 0).testBit 14, (readU32 data 0).testBit 15,
          (readU32 data 0).testBit 16⟩) ∧
    (∀ (header : List Nat), 40 ≤ header.length →
      ole_open_flags (some header) = HwpFlags.from_bytes ((header.drop 36).take 4) ∧
      readU32 ((header.drop 36).take 4) 0 = readU32 header 36) ∧
    (∀ (header : List Nat), header.length < 40 →
      ole_open_flags (some header) = hwp_flags_default) ∧
    ole_open_flags none = hwp_flags_default ∧
    hwp_flags_default =
      ⟨true, false, false, false, false, false, false, false, false, false, false,
        false, false, false, false, false, false⟩ := by
  refine ⟨?_, ?_, ?_, rfl, rfl⟩
  · intro data h
    unfold HwpFlags.from_bytes
    rw [if_neg (by omega), HwpFlags.mk.injEq]
    refine ⟨?_, ?_, ?_, ?_, ?_, ?_, ?_, ?_, ?_, ?_, ?_, ?_, ?_, ?_, ?_, ?_, ?_⟩
    all_goals rw [← div_mod_bne_testBit]
    all_goals norm_num
  · intro header h
    refine ⟨?_, readU32_drop_take header⟩
    simp only [ole_open_flags]
    rw [if_pos h]
  · intro header h
    simp only [ole_open_flags]
    rw [if_neg (by omega)]

/-- C9 witness: a concrete 4-byte flags word `03 00 00 00` (compressed and
encrypted set) decodes bitwise. -/
theorem file_flags_spec_witness :
    HwpFlags.from_bytes [3, 0, 0, 0] =
      ⟨(readU32 [3, 0, 0, 0] 0).testBit 0, (readU32 [3, 0, 0, 0] 0).testBit 1,
        (readU32 [3, 0, 0, 0] 0).testBit 2, (readU32 [3, 0, 0, 0] 0).testBit 3,
        (readU32 [3, 0, 0, 0] 0).testBit 4, (readU32 [3, 0, 0, 0] 0).testBit 5,
        (readU32 [3, 0, 0, 0] 0).testBit 6, (readU32 [3, 0, 0, 0] 0).testBit 7,
        (readU32 [3, 0, 0, 0] 0).testBit 8, (readU32 [3, 0, 0, 0] 0).testBit 9,
        (readU32 [3, 0, 0, 0] 0).testBit 10, (readU32 [3, 0, 0, 0] 0).testBit 11,
        (readU32 [3, 0, 0, 0] 0).testBit 12, (readU32 [3, 0, 0, 0] 0).testBit 13,
        (readU32 [3, 0, 0, 0] 0).testBit 14, (readU32 [3, 0, 0, 0] 0).testBit 15,
        (readU32 [3, 0, 0, 0] 0).testBit 16⟩ :=
  file_flags_spec.1 [3, 0, 0, 0] (by decide)

theorem getElem?_eq_some_getD {l : List Nat} {i : Nat} (h : i < l.length) :
    l[i]? = some (l.getD i 0) := by
  rw [List.getD_eq_getElem?_getD, List.getElem?_eq_getElem h]
  rfl

theorem readU16c_ok {data : List Nat} {i : Nat} (h : i + 2 ≤ data.length) :
    readU16c data i = some (readU16 data i) := by
  unfold readU16c readU16
  rw [getElem?_eq_some_getD (by omega), getElem?_eq_some_getD (by omega)]
  rfl

theorem readU32c_ok {data : List Nat} {i : Nat} (h : i + 4 ≤ data.length) :
    readU32c data i = some (readU32 data i) := by
  unfold readU32c readU32
  rw [getElem?_eq_some_getD (by omega), getElem?_eq_some_getD (by omega),
    getElem?_eq_some_getD (by omega), getElem?_eq_some_getD (by omega)]
  rfl

theorem option_bind_some' {α β : Type} (a : α) (f : α → Option β) :
    (some a >>= f) = f a := rfl

theorem parse_next_c_ok (data : List Nat) (pos : Nat) :
    parse_next_c data pos = some (parse_next data pos) := by
  by_cases h1 : pos + 4 > data.length
  · unfold parse_next_c
    rw [if_pos h1, parse_next_header_short (by omega)]
  · by_cases h2 : readU32 data pos / 1048576 % 4096 = 4095
    · by_cases h3 : pos + 4 + 4 > data.length
      · unfold parse_next_c
        rw [if_neg h1, readU32c_ok (by omega)]
        simp only [option_bind_some']
        rw [if_pos h2, if_pos h3, parse_next_ext_none h2 (by omega)]
        rfl
      · by_cases h4 : pos + 8 + readU32 data (pos + 4) > data.length
        · unfold parse_next_c
          rw [if_neg h1, readU32c_ok (by omega)]
          simp only [option_bind_some']
          rw [if_pos h2, if_neg h3, readU32c_ok (by omega)]
          simp only [option_bind_some']
          rw [if_pos h4, parse_next_ext_none h2 (by omega)]
          rfl
        · unfold parse_next_c
          rw [if_neg h1, readU32c_ok (by omega)]
          simp only [option_bind_some']
          rw [if_pos h2, if_neg h3, readU32c_ok (by omega)]
          simp only [option_bind_some']
          rw [if_neg h4]
          unfold slice_c
          rw [if_pos (by omega)]
          simp only [option_bind_some']
          rw [parse_next_ext_ok h2 (by omega)]
          rfl
    · by_cases h3 : pos + 4 + readU32 data pos / 1048576 % 4096 > data.length
      · unfold parse_next_c
        rw [if_neg h1, readU32c_ok (by omega)]
        simp only [option_bind_some']
        rw [if_neg h2, if_pos h3, parse_next_direct_none (by omega) h2 (by omega)]
        rfl
      · unfold parse_next_c
        rw [if_neg h1, readU32c_ok (by omega)]
        simp only [option_bind_some']
        rw [if_neg h2, if_neg h3]
        unfold slice_c
        rw [if_pos (by omega)]
        simp only [option_bind_some']
        rw [parse_next_direct_ok h2 (by omega)]
        rfl

theorem parse_all_go_c_ok (data : List Nat) :
    ∀ (fuel pos : Nat), parse_all_go_c data pos fuel = some (parse_all_go data pos fuel) := by
  intro fuel
  induction fuel with
  | zero => intro pos; rfl
  | succ n ih =>
    intro pos
    unfold parse_all_go_c parse_all_go
    rw [parse_next_c_ok data pos]
    simp only [option_bind_some']
    cases h : parse_next data pos with
    | none => rfl
    | some rp =>
      obtain ⟨r, pos'⟩ := rp
      simp only
      rw [ih pos']
      simp only [option_bind_some']
      rfl

theorem parse_char_shape_c_ok (data : List Nat) :
    parse_char_shape_c data = some (parse_char_shape data) := by
  by_cases h : data.length < 50
  · unfold parse_char_shape_c parse_char_shape
    rw [if_pos h, if_pos h]
  · unfold parse_char_shape_c parse_char_shape
    rw [if_neg h, if_neg h, readU32c_ok (by omega)]
    simp only [option_bind_some']
    rfl

theorem row_heights_aux_ok (data : List Nat) :
    ∀ (l : List Nat) (acc : List Nat),
      l.foldlM (m := Option) (fun acc i =>
        if 18 + i * 2 + 2 ≤ data.length then
          (readU16c data (18 + i * 2)).map (fun v => acc ++ [v])
        else pure acc) acc =
      some (l.foldl (fun acc i =>
        if 18 + i * 2 + 2 ≤ data.length then acc ++ [readU16 data (18 + i * 2)]
        else acc) acc) := by
  intro l
  induction l with
  | nil => intro acc; rfl
  | cons i rest ih =>
    intro acc
    rw [List.foldlM_cons, List.foldl_cons]
    by_cases hg : 18 + i * 2 + 2 ≤ data.length
    · rw [if_pos hg, if_pos hg, readU16c_ok (by omega)]
      exact ih _
    · rw [if_neg hg, if_neg hg]
      exact ih acc

theorem parse_table_info_c_ok (data : List Nat) :
    parse_table_info_c data = some (parse_table_info data) := by
  by_cases h8 : data.length < 8
  · unfold parse_table_info_c parse_table_info
    rw [if_pos h8, if_pos h8]
  · simp only [parse_table_info_c, parse_table_info]
    rw [if_neg h8, if_neg h8, readU16c_ok (by omega), readU16c_ok (by omega)]
    simp only [option_bind_some']
    by_cases hg : 18 + readU16 data 4 * 2 ≤ data.length
    · rw [if_pos hg, if_pos hg]
      unfold row_heights_c
      rw [row_heights_aux_ok data (List.range (readU16 data 4)) []]
      simp only [option_bind_some']
      rfl
    · rw [if_neg hg, if_neg hg]
      rfl

theorem parse_cell_list_header_c_ok (data : List Nat) :
    parse_cell_list_header_c data = some (parse_cell_list_header data) := by
  by_cases h : data.length < 26
  · unfold parse_cell_list_header_c parse_cell_list_header
    rw [if_pos h, if_pos h]
  · unfold parse_cell_list_header_c parse_cell_list_header
    rw [if_neg h, if_neg h, readU16c_ok (by omega), readU16c_ok (by omega)]
    simp only [option_bind_some']
    rfl

/-- C10: the record- and payload-level decoders are total and every read
is bounds-checked: the checked variants (whose outer `none` would signal
an out-of-bounds access) always return `some` of the plain result; the
UTF-16 extractors consume the buffer by two-byte pattern matching, so a
buffer shorter than one code unit yields the empty result; the
fixed-layout parsers return `none` on short input; and `organize_cells`
returns the empty grid for `cols = 0`. -/
theorem decoding_totality_spec :
    (∀ (data : List Nat) (pos : Nat), parse_next_c data pos = some (parse_next data pos)) ∧
    (∀ (data : List Nat), parse_all_c data = some (parse_all data)) ∧
    (∀ (data : List Nat), data.length < 2 →
      extract_para_text data = "" ∧ extract_para_text_with_positions data = []) ∧
    (∀ (data : List Nat), parse_char_shape_c data = some (parse_char_shape data)) ∧
    (∀ (data : List Nat), data.length < 50 → parse_char_shape data = none) ∧
    (∀ (data : List Nat), parse_table_info_c data = some (parse_table_info data)) ∧
    (∀ (data : List Nat), data.length < 8 → parse_table_info data = none) ∧
    (∀ (data : List Nat), parse_cell_list_header_c data = some (parse_cell_list_header data)) ∧
    (∀ (data : List Nat), data.length < 26 → parse_cell_list_header data = none) ∧
    (∀ (cells : List String), organize_cells cells 0 = []) := by
  refine ⟨parse_next_c_ok, fun data => parse_all_go_c_ok data (data.length + 1) 0, ?_,
    parse_char_shape_c_ok, ?_, parse_table_info_c_ok, ?_, parse_cell_list_header_c_ok,
    fun _ h => parse_cell_list_header_short h, fun cells => rfl⟩
  · intro data h
    cases data with
    | nil => exact ⟨rfl, rfl⟩
    | cons b rest =>
      cases rest with
      | nil => exact ⟨rfl, rfl⟩
      | cons c r2 =>
        exfalso
        simp only [List.length_cons] at h
        omega
  · intro data h
    unfold parse_char_shape
    rw [if_pos h]
  · intro data h
    unfold parse_table_info
    rw [if_pos h]

/-- C10 witness: short inputs produce empty or `none` results. -/
theorem decoding_totality_spec_witness :
    (extract_para_text [7] = "" ∧ extract_para_text_with_positions [7] = []) ∧
    parse_char_shape [1, 2, 3] = none ∧
    parse_table_info [1, 2, 3] = none ∧
    parse_cell_list_header [1, 2, 3] = none :=
  ⟨decoding_totality_spec.2.2.1 [7] (by decide),
    decoding_totality_spec.2.2.2.2.1 [1, 2, 3] (by decide),
    decoding_totality_spec.2.2.2.2.2.2.1 [1, 2, 3] (by decide),
    decoding_totality_spec.2.2.2.2.2.2.2.2.1 [1, 2, 3] (by decide)⟩
